import Mathlib

/-!
Shallow embedding of `src/src/Place_List.cc` (FRED place registry and
assignment algorithms), together with theorems checking the spec's claims
about it.  Machine doubles are modelled as exact rationals, the global
pseudorandom stream as an explicit stream of rationals in `[0,1)`, and
C++ `int` casts as truncation toward zero.
-/

namespace FRED

/-- C's `(int)x` conversion for a rational: truncation toward zero. -/
def ctrunc (q : ℚ) : ℤ := if 0 ≤ q then ⌊q⌋ else -⌊-q⌋

/-- The spec's `round_half_up` on rationals: `floor(x + 1/2)`. -/
def roundHalfUp (x : ℚ) : ℤ := ⌊x + 1/2⌋

/-! ## Group-quarters partitioner (`Place_List::setup_group_quarters`, lines 1498-1562)

For one group-quarters household the code copies the `gq_size` occupants
into `housemates`, computes `min_per_unit = gq_size / gq_units`,
`larger_units = gq_size - min_per_unit*gq_units`,
`smaller_units = gq_units - larger_units`, leaves the first `min_per_unit`
occupants in the original household (`next_person` starts at
`min_per_unit`), then transfers consecutive blocks of `min_per_unit`
occupants into each of the next `smaller_units - 1` households and blocks
of `min_per_unit + 1` into each of the next `larger_units` households. -/

/-- Split a list into consecutive blocks of the given sizes (the effect of
the sequential `next_person` transfers in `setup_group_quarters`). -/
def splitSizes {α : Type} : List ℕ → List α → List (List α)
  | [], _ => []
  | n :: ns, l => l.take n :: splitSizes ns (l.drop n)

def gq_min_per_unit (gq_size gq_units : ℕ) : ℕ := gq_size / gq_units

def gq_larger_units (gq_size gq_units : ℕ) : ℕ :=
  gq_size - gq_min_per_unit gq_size gq_units * gq_units

def gq_smaller_units (gq_size gq_units : ℕ) : ℕ :=
  gq_units - gq_larger_units gq_size gq_units

/-- Sizes of the units produced for one group-quarters household: the
original household keeps `min_per_unit` occupants, the next
`smaller_units - 1` units receive `min_per_unit` each, the last
`larger_units` units receive `min_per_unit + 1` each. -/
def gqUnitSizes (gq_size gq_units : ℕ) : List ℕ :=
  gq_min_per_unit gq_size gq_units ::
    (List.replicate (gq_smaller_units gq_size gq_units - 1) (gq_min_per_unit gq_size gq_units) ++
     List.replicate (gq_larger_units gq_size gq_units) (gq_min_per_unit gq_size gq_units + 1))

/-- Occupant lists of the units produced by `setup_group_quarters` for one
group-quarters household with occupant list `housemates`; when
`gq_units ≤ 1` the household is left untouched. -/
def setup_group_quarters {P : Type} (gq_units : ℕ) (housemates : List P) : List (List P) :=
  if 1 < gq_units then splitSizes (gqUnitSizes housemates.length gq_units) housemates
  else [housemates]

/-! ## Weighted hospital selection
(`Place_List::get_random_open_hospital_matching_criteria`, lines 1967-2063;
`Place_List::get_random_open_healthcare_facility_matching_criteria`, lines 2066-2172;
`Place_List::get_random_primary_care_facility_matching_criteria`, lines 2175-2317)

A candidate hospital is modelled by the attributes those functions read.
Doubles are exact rationals; the single uniform draw `Random::draw_random()`
is an explicit argument `rand` with `0 ≤ rand < 1`. -/

structure HospCand where
  distance : ℚ          -- distance_between_places(hh, hospital)
  bed_count : ℕ         -- hospital->get_bed_count(sim_day)     (overnight_cap)
  occupied_beds : ℕ     -- hospital->get_occupied_bed_count()
  daily_capacity : ℕ    -- hospital->get_daily_patient_capacity(...)
  current_patients : ℕ  -- hospital->get_current_daily_patient_count()
  is_clinic : Bool      -- hospital->is_healthcare_clinic()
  is_mobile : Bool      -- hospital->is_mobile_healthcare_clinic()
  open_on_day : Bool    -- hospital->should_be_open(...)
  accepts_ins : Bool    -- hospital->accepts_insurance(per_insur)
  current_assigned : ℕ  -- Hospital_ID_current_assigned_size_map.at(id)
  total_assigned : ℕ    -- Hospital_ID_total_assigned_size_map.at(id)
  deriving DecidableEq

/-- Eligibility in catchment mode (the branch of lines 2004-2027 that sets
`increment = 1`). -/
def catchment_eligible (check_insurance : Bool) (h : HospCand) : Prop :=
  0 < h.distance ∧ h.is_clinic = false ∧ h.is_mobile = false ∧
    h.open_on_day = true ∧ h.occupied_beds < h.bed_count ∧
    (check_insurance = true → h.accepts_ins = true)

instance (ci : Bool) (h : HospCand) : Decidable (catchment_eligible ci h) := by
  unfold catchment_eligible; infer_instance

/-- `cur_prob` in catchment mode: `overnight_cap / distance` when eligible,
`0.0` otherwise. -/
def catchment_prob (check_insurance : Bool) (h : HospCand) : ℚ :=
  if catchment_eligible check_insurance h then (h.bed_count : ℚ) / h.distance else 0

/-- Eligibility in daily mode (lines 2096-2143). -/
def daily_eligible (check_insurance use_search_radius_limit : Bool) (radius : ℚ)
    (h : HospCand) : Prop :=
  0 < h.distance ∧ h.open_on_day = true ∧ h.current_patients < h.daily_capacity ∧
    (use_search_radius_limit = true → h.distance ≤ radius) ∧
    (check_insurance = true → h.accepts_ins = true)

instance (ci ur : Bool) (r : ℚ) (h : HospCand) : Decidable (daily_eligible ci ur r h) := by
  unfold daily_eligible; infer_instance

/-- `cur_prob` in daily mode: `daily_hosp_cap / distance²` when eligible. -/
def daily_prob (check_insurance use_search_radius_limit : Bool) (radius : ℚ)
    (h : HospCand) : ℚ :=
  if daily_eligible check_insurance use_search_radius_limit radius h then
    (h.daily_capacity : ℚ) / (h.distance * h.distance) else 0

/-- Eligibility in primary-care mode (lines 2210-2288): no daily-count
check, but the panel counter must satisfy `current_assigned < total_assigned`. -/
def primary_eligible (check_insurance use_search_radius_limit : Bool) (radius : ℚ)
    (h : HospCand) : Prop :=
  0 < h.distance ∧ h.open_on_day = true ∧
    (use_search_radius_limit = true → h.distance ≤ radius) ∧
    (check_insurance = true → h.accepts_ins = true) ∧
    h.current_assigned < h.total_assigned

instance (ci ur : Bool) (r : ℚ) (h : HospCand) : Decidable (primary_eligible ci ur r h) := by
  unfold primary_eligible; infer_instance

/-- `cur_prob` in primary-care mode: `daily_hosp_cap / distance²` when
eligible — note `daily_hosp_cap` may be `0` here, giving an eligible
candidate of weight `0`. -/
def primary_prob (check_insurance use_search_radius_limit : Bool) (radius : ℚ)
    (h : HospCand) : ℚ :=
  if primary_eligible check_insurance use_search_radius_limit radius h then
    (h.daily_capacity : ℚ) / (h.distance * h.distance) else 0

/-- The cumulative walk of lines 2046-2056: `cum_prob += hosp_probs[i]`,
return the first `i` with `rand < cum_prob`. -/
def walkFrom (rand : ℚ) : ℚ → List ℚ → Option ℕ
  | _, [] => none
  | cum, p :: ps =>
    if rand < cum + p then some 0 else (walkFrom rand (cum + p) ps).map (· + 1)

/-- The shared tail of the three selectors: build `hosp_probs`, sum to
`probability_total`, count `number_possible_hospitals`; if none possible
return `none`; otherwise normalize when the total is positive, walk the
cumulative distribution against the draw, and fall back to the last
candidate if the walk consumes the whole list.  Returns the index of the
chosen candidate. -/
def weighted_select (probFn : HospCand → ℚ) (eligFn : HospCand → Bool)
    (cands : List HospCand) (rand : ℚ) : Option ℕ :=
  let hosp_probs := cands.map probFn
  let probability_total := hosp_probs.sum
  let number_possible_hospitals := (cands.filter eligFn).length
  if 0 < number_possible_hospitals then
    let probs := if 0 < probability_total then
        hosp_probs.map (· / probability_total) else hosp_probs
    match walkFrom rand 0 probs with
    | some i => some i
    | none => some (cands.length - 1)
  else
    none

/-- `Place_List::get_random_open_hospital_matching_criteria` restricted to
the weighted choice among the nearby candidates (grid query supplied as
`cands`). -/
def get_random_open_hospital_matching_criteria (check_insurance : Bool)
    (cands : List HospCand) (rand : ℚ) : Option ℕ :=
  weighted_select (catchment_prob check_insurance)
    (fun h => decide (catchment_eligible check_insurance h)) cands rand

/-- `Place_List::get_random_open_healthcare_facility_matching_criteria`. -/
def get_random_open_healthcare_facility_matching_criteria
    (check_insurance use_search_radius_limit : Bool) (radius : ℚ)
    (cands : List HospCand) (rand : ℚ) : Option ℕ :=
  weighted_select (daily_prob check_insurance use_search_radius_limit radius)
    (fun h => decide (daily_eligible check_insurance use_search_radius_limit radius h))
    cands rand

/-- `Place_List::get_random_primary_care_facility_matching_criteria`. -/
def get_random_primary_care_facility_matching_criteria
    (check_insurance use_search_radius_limit : Bool) (radius : ℚ)
    (cands : List HospCand) (rand : ℚ) : Option ℕ :=
  weighted_select (primary_prob check_insurance use_search_radius_limit radius)
    (fun h => decide (primary_eligible check_insurance use_search_radius_limit radius h))
    cands rand

/-- Modelled from the spec: the increment of the chosen hospital's
`current_assigned_size` counter (`HospitalAssignmentState`) performed by
the primary-care selector's caller; the incrementing caller is not under
`src/`.  The spec says the counters form per-hospital state with invariant
`current ≤ target` during the panel-assignment phase. -/
def record_primary_care_assignment (cands : List HospCand) (i : ℕ) : List HospCand :=
  match cands.get? i with
  | some h => cands.set i { h with current_assigned := h.current_assigned + 1 }
  | none => cands

/-- A hospital that is eligible for primary-care assignment (positive
distance, open, panel not full) but has zero daily patient capacity, so
its computed weight is `0`. -/
def zeroCapHosp : HospCand :=
  { distance := 1, bed_count := 0, occupied_beds := 0, daily_capacity := 0,
    current_patients := 0, is_clinic := false, is_mobile := false,
    open_on_day := true, accepts_ins := false, current_assigned := 0,
    total_assigned := 1 }

/-- A hospital whose primary-care panel is already full
(`current_assigned = total_assigned`), hence ineligible. -/
def fullPanelHosp : HospCand :=
  { distance := 1, bed_count := 3, occupied_beds := 0, daily_capacity := 5,
    current_patients := 0, is_clinic := false, is_mobile := false,
    open_on_day := true, accepts_ins := false, current_assigned := 1,
    total_assigned := 1 }

/-- A hospital eligible for primary care with positive daily capacity. -/
def smallCapHosp : HospCand :=
  { distance := 1, bed_count := 0, occupied_beds := 0, daily_capacity := 4,
    current_patients := 0, is_clinic := false, is_mobile := false,
    open_on_day := true, accepts_ins := false, current_assigned := 0,
    total_assigned := 1 }

/-! ## Shelter scheduling (`Place_List::shelter_household`, lines 2454-2495)

The two `draw_normal` results are passed in as explicit rationals
(`normal_delay`, `normal_duration`); the uniform draws come from `stream`
with a cursor.  The C `int` initializations truncate toward zero. -/

/-- The `while(shelter_start_day > 0 && r < Early_shelter_rate)` loop of
lines 2461-2465: `r` is drawn before the loop and redrawn each iteration. -/
def early_shelter_loop (rate : ℚ) (stream : ℕ → ℚ) (c : ℕ) (start : ℤ) : ℤ × ℕ :=
  if 0 < start ∧ stream c < rate then early_shelter_loop rate stream (c + 1) (start - 1)
  else (start, c + 1)
termination_by start.toNat
decreasing_by
  rename_i hcond
  omega

/-- The `while(shelter_duration < Shelter_duration_mean && Shelter_decay_rate < r)`
loop of lines 2484-2487. -/
def shelter_decay_loop (decay_rate duration_mean : ℚ) (stream : ℕ → ℚ) (c : ℕ)
    (duration : ℤ) : ℤ × ℕ :=
  if (duration : ℚ) < duration_mean ∧ decay_rate < stream c then
    shelter_decay_loop decay_rate duration_mean stream (c + 1) (duration + 1)
  else (duration, c + 1)
termination_by (⌈duration_mean⌉ - duration).toNat
decreasing_by
  rename_i hcond
  have hlt : duration < ⌈duration_mean⌉ := Int.lt_ceil.mpr hcond.1
  omega

/-- `Place_List::shelter_household`: returns the recorded
`(shelter_start_day, shelter_end_day)` pair. -/
def shelter_household (early_rate decay_rate duration_mean : ℚ)
    (normal_delay normal_duration : ℚ) (stream : ℕ → ℚ) : ℤ × ℤ :=
  let start0 : ℤ := ctrunc (4999999 / 10000000 + normal_delay)
  let sc := if 0 < early_rate then early_shelter_loop early_rate stream 0 start0
            else (start0, 0)
  let shelter_start_day := if sc.1 < 0 then 0 else sc.1
  let dur0 : ℤ := ctrunc (4999999 / 10000000 + normal_duration)
  let dur1 := if dur0 < 1 then 1 else dur0
  let shelter_duration := if 0 < decay_rate then
      (if stream sc.2 < 1 / 2 then
        (shelter_decay_loop decay_rate duration_mean stream (sc.2 + 1) 1).1
      else dur1)
    else dur1
  (shelter_start_day, shelter_start_day + shelter_duration)

/-! ## Evacuation scheduling (`Place_List::select_households_for_evacuation`,
lines 2497-2557), per household.

Day windows are inclusive integer ranges.  Note line 2534 compares the
return-day draw against `HAZEL_disaster_evac_prob_per_day`; the parameter
`HAZEL_disaster_return_prob_per_day` (read at line 208) is never used. -/

/-- The inclusive integer range `[a..b]` iterated by the day loops. -/
def intRange (a b : ℤ) : List ℤ :=
  List.map (fun n : ℕ => a + (n : ℤ)) (List.range (b + 1 - a).toNat)

/-- Inner return-day loop (lines 2533-2543): accept day `k` when the draw
beats the probability or `k` is the window's last day, but record it only
when `k > j`; as in the source, the comparison uses `evac_prob`. -/
def evac_return_loop (evac_prob : ℚ) (return_end j : ℤ) (stream : ℕ → ℚ) :
    ℕ → List ℤ → Option ℤ × ℕ
  | c, [] => (none, c)
  | c, k :: ks =>
    if stream c < evac_prob ∨ k = return_end then
      if j < k then (some k, c + 1)
      else evac_return_loop evac_prob return_end j stream (c + 1) ks
    else evac_return_loop evac_prob return_end j stream (c + 1) ks

/-- Modelled from the spec: the same return-day loop as `evac_return_loop`
but with the per-day Bernoulli trial drawn against
`HAZEL_disaster_return_prob_per_day`, as §4.5 of the spec describes it
("drawing a per-day Bernoulli trial (probability = return_prob_per_day)"). -/
def evac_return_loop_asSpecified (return_prob : ℚ) (return_end j : ℤ) (stream : ℕ → ℚ) :
    ℕ → List ℤ → Option ℤ × ℕ
  | c, [] => (none, c)
  | c, k :: ks =>
    if stream c < return_prob ∨ k = return_end then
      if j < k then (some k, c + 1)
      else evac_return_loop_asSpecified return_prob return_end j stream (c + 1) ks
    else evac_return_loop_asSpecified return_prob return_end j stream (c + 1) ks

/-- Outer evacuation-day loop (lines 2528-2549): on the first day `j` whose
draw beats `evac_prob`, record `j` as the evacuation (shelter start) day,
run the return loop, and stop. -/
def evac_outer_loop (evac_prob : ℚ) (return_days : List ℤ) (return_end : ℤ)
    (stream : ℕ → ℚ) : ℕ → List ℤ → Option (ℤ × Option ℤ) × ℕ
  | c, [] => (none, c)
  | c, j :: js =>
    if stream c < evac_prob then
      let rc := evac_return_loop evac_prob return_end j stream (c + 1) return_days
      (some (j, rc.1), rc.2)
    else evac_outer_loop evac_prob return_days return_end stream (c + 1) js

/-- `Place_List::select_households_for_evacuation` restricted to one
household: the early-return guard of line 2520, then the day loops.
Returns `none` when evacuation never triggers, otherwise the evacuation
day and the recorded return day (if any). -/
def select_households_for_evacuation_hh (evac_start evac_end return_start return_end : ℤ)
    (evac_prob : ℚ) (stream : ℕ → ℚ) : Option (ℤ × Option ℤ) :=
  if evac_start < 0 ∨ evac_end < evac_start then none
  else (evac_outer_loop evac_prob (intRange return_start return_end) return_end stream 0
    (intRange evac_start evac_end)).1

/-! ## Shelter household selection (`Place_List::select_households_for_shelter`,
lines 2420-2452; comparator `compare_household_incomes`, lines 1565-1569).

`setup_households` (line 1626) sorts `this->households` with
`std::sort(..., compare_household_incomes)`; the selection code relies on
that (comment at lines 2431-2432), which here is a sortedness
hypothesis. -/

structure HH where
  id : ℕ
  income : ℤ
  deriving DecidableEq

/-- `compare_household_incomes` (strict): ascending income, ties broken by
smaller id. -/
def compare_household_incomes (h1 h2 : HH) : Prop :=
  if h1.income = h2.income then h1.id < h2.id else h1.income < h2.income

instance (a b : HH) : Decidable (compare_household_incomes a b) := by
  unfold compare_household_incomes
  split <;> infer_instance

/-- The non-strict order under which `std::sort`'s output is sorted. -/
def household_income_le (a b : HH) : Prop := ¬ compare_household_incomes b a

instance (a b : HH) : Decidable (household_income_le a b) := by
  unfold household_income_le
  infer_instance

/-- `int num_sheltering = 0.5 + Pct_households_sheltering * this->households.size()`
(line 2424). -/
def num_sheltering (pct : ℚ) (n : ℕ) : ℤ := ctrunc (1 / 2 + pct * n)

/-- Income mode (lines 2433-2437): pick the households at indexes
`num_households - 1 - i` for `i = 0, ..., k-1` of the income-sorted
list. -/
def select_households_for_shelter_income (hhs : List HH) (k : ℕ) : List HH :=
  (List.range k).filterMap (fun i => hhs.get? (hhs.length - 1 - i))

/-- Random mode (lines 2440-2449): `tmp` is the `FYShuffle`d copy of the
households (modelled as an arbitrary permutation); take the first `k`. -/
def select_households_for_shelter_random (tmp : List HH) (k : ℕ) : List HH :=
  tmp.take k

/-! ## Place registry (`Place_List::add_place`, lines 1423-1495;
`Place_List::get_place_from_label`, lines 1407-1421) -/

/-- `std::map::find` over an association list with string keys (the maps
of `Place_List` have unique keys, so list order is immaterial). -/
def assoc_find {β : Type} : List (String × β) → String → Option β
  | [], _ => none
  | (k, v) :: tl, s => if k = s then some v else assoc_find tl s

structure PlaceRec where
  label : String
  ptype : Char
  id : ℕ
  deriving DecidableEq

/-- The seven type tags recognized by the `switch(type)` of lines
1435-1463. -/
def place_type_chars : List Char := ['H', 'W', 'O', 'N', 'S', 'C', 'M']

/-- The `switch(type)` of lines 1434-1463: a place variant is constructed
only for the seven recognized type tags; for any other tag `place` stays
`NULL` (modelled `none`), and the subsequent `place->set_id(id)` of line
1466 would dereference the null pointer. -/
def mkPlace (label : String) (ptype : Char) (id : ℕ) : Option PlaceRec :=
  if ptype ∈ place_type_chars then some ⟨label, ptype, id⟩ else none

structure Registry where
  place_label_map : List (String × ℕ)
  places : List PlaceRec
  next_place_id : ℕ

def init_registry : Registry := ⟨[], [], 0⟩

/-- `Place_List::get_place_from_label`: `NULL` for the sentinel label
`"-1"` or an unregistered label, otherwise `this->places[id]` for the
mapped id. -/
def get_place_from_label (r : Registry) (s : String) : Option PlaceRec :=
  if s = "-1" then none
  else match assoc_find r.place_label_map s with
    | some id => r.places.get? id
    | none => none

/-- `Place_List::add_place`: on a registered label return
`get_place_from_label(label)` unchanged; otherwise construct the variant,
assign the next id, record `label → id` and append to `places`.
`get_new_place_id` is declared in `Place_List.h`, which is not under
`src/`; modelled from the spec: "assign the next id", ids "unique,
monotonically assigned, never reused" — it returns `next_place_id` and
bumps the counter. -/
def add_place (r : Registry) (label : String) (ptype : Char) :
    Option PlaceRec × Registry :=
  if (assoc_find r.place_label_map label).isSome then
    (get_place_from_label r label, r)
  else
    match mkPlace label ptype r.next_place_id with
    | none => (none, r)
    | some p =>
      (some p,
        { place_label_map := r.place_label_map ++ [(label, p.id)],
          places := r.places ++ [p],
          next_place_id := r.next_place_id + 1 })

/-- Run a sequence of `add_place` requests from the empty registry. -/
def runAdds (reqs : List (String × Char)) : Registry :=
  reqs.foldl (fun r q => (add_place r q.1 q.2).2) init_registry

/-- Registry well-formedness: the id counter equals the number of places,
place ids are exactly their positions, the label map mirrors the places in
order, and labels are pairwise distinct. -/
def RegistryInv (r : Registry) : Prop :=
  r.next_place_id = r.places.length ∧
  r.places.map PlaceRec.id = List.range r.places.length ∧
  r.place_label_map = r.places.map (fun p => (p.label, p.id)) ∧
  (r.places.map PlaceRec.label).Nodup

/-! ## Worker reassignment (`Place_List::reassign_workers_to_schools`,
lines 1683-1725; `reassign_workers_to_places_of_type`, lines 1727-1769;
`reassign_workers_to_group_quarters`, lines 1771-1813).

Each function loops over `this->places`, filters by type (or workplace
subtype), skips targets whose patch lookup fails (`continue`, non-fatal),
computes the desired staff count, and reassigns a nearby workplace's
roster.  The embedding records, per processed target, the computed staff
count. -/

structure StaffTarget where
  ptype : Char          -- place->get_type()
  subtype : Char        -- place->get_subtype()
  size : ℕ              -- place->get_size()
  employee_count : ℕ    -- hospital->get_employee_count() (from the input file)
  orig_students : ℕ     -- school->get_orig_number_of_students()
  in_region : Bool      -- Global::Simulation_Region->get_patch(lat, lon) != NULL
  deriving DecidableEq

def TYPE_HOSPITAL : Char := 'M'

/-- `int staff = fixed_staff; if(staff_ratio > 0.0) staff += (0.5 + (double)n / staff_ratio);`
— the `+=` converts the double sum back to `int` by truncation. -/
def staff_count (fixed_staff : ℤ) (staff_ratio : ℚ) (n : ℕ) : ℤ :=
  if 0 < staff_ratio then
    ctrunc ((fixed_staff : ℚ) + (1 / 2 + (n : ℚ) / staff_ratio))
  else fixed_staff

/-- `reassign_workers_to_schools`: `n` is the school's original student
count; out-of-region targets are skipped. -/
def reassign_workers_to_schools (place_type : Char) (fixed_staff : ℤ)
    (staff_ratio : ℚ) (places : List StaffTarget) : List (StaffTarget × ℤ) :=
  places.filterMap (fun p =>
    if p.ptype = place_type then
      if p.in_region = true then
        some (p, staff_count fixed_staff staff_ratio p.orig_students)
      else none
    else none)

/-- `reassign_workers_to_places_of_type`: `n` is `place->get_size()`, or
the input-file employee count when the type is `Place::TYPE_HOSPITAL`. -/
def reassign_workers_to_places_of_type (place_type : Char) (fixed_staff : ℤ)
    (staff_ratio : ℚ) (places : List StaffTarget) : List (StaffTarget × ℤ) :=
  places.filterMap (fun p =>
    if p.ptype = place_type then
      if p.in_region = true then
        some (p, staff_count fixed_staff staff_ratio
          (if place_type = TYPE_HOSPITAL then p.employee_count else p.size))
      else none
    else none)

/-- `reassign_workers_to_group_quarters`: workplaces of the given subtype;
`n` is `place->get_size()` (the staff target is computed before the
region check, but its value does not depend on the check). -/
def reassign_workers_to_group_quarters (subtype : Char) (fixed_staff : ℤ)
    (resident_to_staff_ratio : ℚ) (places : List StaffTarget) :
    List (StaffTarget × ℤ) :=
  places.filterMap (fun p =>
    if p.ptype = 'W' ∧ p.subtype = subtype then
      if p.in_region = true then
        some (p, staff_count fixed_staff resident_to_staff_ratio p.size)
      else none
    else none)

/-! ## Household→hospital mapping reuse
(`Place_List::get_hospital_assigned_to_household`, lines 2773-2807).

If the household's label is in `hh_label_hosp_label_map` (loaded from the
mapping file) and the mapped hospital label is in
`hosp_label_hosp_id_map`, the mapped hospital is returned directly;
otherwise the catchment selector is run (with an insurance retry),
consuming random draws.  `hospitals` holds the registered hospital labels
in registry order (`hosp_id = hospitals.size() - 1` at insertion, lines
895-896). -/

structure HospMapState where
  hh_label_hosp_label_map : List (String × String)
  hosp_label_hosp_id_map : List (String × ℕ)
  hospitals : List String

/-- `get_hospital_assigned_to_household`: returns the chosen hospital
index and the new random-stream cursor (`c` unchanged means no draws were
consumed).  The sampling branch abstracts the nearby-candidate list as
`cands` and models the unreachable `assert(hosp != NULL)` abort as
`none`. -/
def get_hospital_assigned_to_household (s : HospMapState) (hh_label : String)
    (hh_size : ℕ) (insurance_enabled : Bool) (cands : List HospCand)
    (stream : ℕ → ℚ) (c : ℕ) : Option ℕ × ℕ :=
  match assoc_find s.hh_label_hosp_label_map hh_label with
  | some hosp_label =>
    match assoc_find s.hosp_label_hosp_id_map hosp_label with
    | some hosp_id => (some hosp_id, c)
    | none => (none, c)
  | none =>
    if 0 < hh_size then
      match (if insurance_enabled then
          get_random_open_hospital_matching_criteria true cands (stream c)
        else
          get_random_open_hospital_matching_criteria false cands (stream c)) with
      | some i => (some i, c + 1)
      | none =>
        (get_random_open_hospital_matching_criteria false cands (stream (c + 1)), c + 2)
    else (none, c)

theorem gq_larger_units_eq_mod (gq_size gq_units : ℕ) :
    gq_larger_units gq_size gq_units = gq_size % gq_units := by
  have h1 : gq_units * (gq_size / gq_units) + gq_size % gq_units = gq_size :=
    Nat.div_add_mod gq_size gq_units
  unfold gq_larger_units gq_min_per_unit
  rw [Nat.mul_comm] at h1
  omega

theorem gq_mod_lt (gq_size gq_units : ℕ) (hu : 0 < gq_units) :
    gq_size % gq_units < gq_units := Nat.mod_lt _ hu

theorem gqUnitSizes_sum (gq_size gq_units : ℕ) (hu : 0 < gq_units) :
    (gqUnitSizes gq_size gq_units).sum = gq_size := by
  have h1 : gq_units * (gq_size / gq_units) + gq_size % gq_units = gq_size :=
    Nat.div_add_mod gq_size gq_units
  have h2 : gq_size % gq_units < gq_units := Nat.mod_lt _ hu
  have h3 := gq_larger_units_eq_mod gq_size gq_units
  unfold gqUnitSizes gq_smaller_units gq_min_per_unit
  rw [h3]
  simp only [List.sum_cons, List.sum_append, List.sum_replicate, smul_eq_mul]
  set q := gq_size / gq_units with hq
  set r := gq_size % gq_units with hr
  zify [show r ≤ gq_units from le_of_lt h2, show 1 ≤ gq_units - r by omega]
  nlinarith [h1, h2]

theorem gqUnitSizes_length (gq_size gq_units : ℕ) (hu : 0 < gq_units) :
    (gqUnitSizes gq_size gq_units).length = gq_units := by
  have h2 : gq_size % gq_units < gq_units := Nat.mod_lt _ hu
  have h3 := gq_larger_units_eq_mod gq_size gq_units
  unfold gqUnitSizes gq_smaller_units
  rw [h3]
  simp only [List.length_cons, List.length_append, List.length_replicate]
  omega

theorem gqUnitSizes_mem (gq_size gq_units : ℕ) (s : ℕ)
    (hs : s ∈ gqUnitSizes gq_size gq_units) :
    s = gq_size / gq_units ∨ s = gq_size / gq_units + 1 := by
  unfold gqUnitSizes gq_min_per_unit at hs
  rcases List.mem_cons.mp hs with h | h
  · left; exact h
  · rcases List.mem_append.mp h with h' | h'
    · left; exact List.eq_of_mem_replicate h'
    · right; exact List.eq_of_mem_replicate h'

theorem splitSizes_flatten {α : Type} :
    ∀ (ns : List ℕ) (l : List α), l.length = ns.sum → (splitSizes ns l).flatten = l
  | [], l, h => by
    simp only [List.sum_nil] at h
    simp [splitSizes, List.eq_nil_of_length_eq_zero h]
  | n :: ns, l, h => by
    simp only [List.sum_cons] at h
    have hd : (l.drop n).length = ns.sum := by
      rw [List.length_drop]; omega
    simp [splitSizes, splitSizes_flatten ns (l.drop n) hd]

theorem splitSizes_lengths {α : Type} :
    ∀ (ns : List ℕ) (l : List α), ns.sum ≤ l.length →
      (splitSizes ns l).map List.length = ns
  | [], l, _ => by simp [splitSizes]
  | n :: ns, l, h => by
    simp only [List.sum_cons] at h
    have hd : ns.sum ≤ (l.drop n).length := by
      rw [List.length_drop]; omega
    simp [splitSizes, splitSizes_lengths ns (l.drop n) hd, List.length_take]
    omega

/-- C1: splitting a group-quarters household of occupancy `size` into
`gq_units > 1` units conserves occupants: the unit sizes sum to `size`,
each unit size is `size / gq_units` or `size / gq_units + 1`, exactly
`gq_units` units result, the first `size / gq_units` occupants remain in
the original household, the concatenation of the units is exactly the
original occupant list (nobody dropped), and for distinct occupants the
units are pairwise disjoint (nobody in two households). -/
theorem gq_partition_correct {P : Type} (gq_units : ℕ) (hm : List P)
    (hu : 1 < gq_units) :
    ((setup_group_quarters gq_units hm).map List.length).sum = hm.length ∧
    (setup_group_quarters gq_units hm).length = gq_units ∧
    (∀ s ∈ (setup_group_quarters gq_units hm).map List.length,
      s = hm.length / gq_units ∨ s = hm.length / gq_units + 1) ∧
    (setup_group_quarters gq_units hm).head? = some (hm.take (hm.length / gq_units)) ∧
    (setup_group_quarters gq_units hm).flatten = hm ∧
    (hm.Nodup → (setup_group_quarters gq_units hm).Pairwise List.Disjoint) := by
  have hu0 : 0 < gq_units := by omega
  have hsum := gqUnitSizes_sum hm.length gq_units hu0
  have hlen : (gqUnitSizes hm.length gq_units).sum ≤ hm.length := le_of_eq hsum
  have hsplit : setup_group_quarters gq_units hm =
      splitSizes (gqUnitSizes hm.length gq_units) hm := by
    simp [setup_group_quarters, hu]
  have hmap : (setup_group_quarters gq_units hm).map List.length =
      gqUnitSizes hm.length gq_units := by
    rw [hsplit]; exact splitSizes_lengths _ _ hlen
  have hjoin : (setup_group_quarters gq_units hm).flatten = hm := by
    rw [hsplit]; exact splitSizes_flatten _ _ hsum.symm
  refine ⟨by rw [hmap, hsum], ?_, ?_, ?_, hjoin, ?_⟩
  · have := congrArg List.length hmap
    simpa [gqUnitSizes_length hm.length gq_units hu0] using this
  · intro s hs
    rw [hmap] at hs
    exact gqUnitSizes_mem hm.length gq_units s hs
  · rw [hsplit]
    simp [splitSizes, gqUnitSizes, gq_min_per_unit]
  · intro hnd
    have : (setup_group_quarters gq_units hm).flatten.Nodup := by rw [hjoin]; exact hnd
    have h := (List.nodup_flatten.mp this).2
    exact h

/-- C1 witness: the spec's own example, `size = 100`, `units = 7`. -/
theorem gq_partition_correct_witness :
    1 < 7 ∧ ((setup_group_quarters 7 (List.range 100)).map List.length).sum = 100 := by
  refine ⟨by decide, ?_⟩
  have h := (gq_partition_correct 7 (List.range 100) (by decide)).1
  simpa using h

/-! ### Weighted-selection lemmas -/

theorem sum_map_div (l : List ℚ) (t : ℚ) : (l.map (· / t)).sum = l.sum / t := by
  induction l with
  | nil => simp
  | cons x xs ih => simp [ih, add_div]

theorem walkFrom_pos :
    ∀ (ps : List ℚ) (cum rand : ℚ), cum ≤ rand → rand < cum + ps.sum →
      ∃ (i : ℕ) (hi : i < ps.length), walkFrom rand cum ps = some i ∧ 0 < ps.get ⟨i, hi⟩
  | [], cum, rand, h1, h2 => by
    simp only [List.sum_nil, add_zero] at h2
    exact absurd h2 (not_lt.mpr h1)
  | p :: ps, cum, rand, h1, h2 => by
    by_cases hc : rand < cum + p
    · refine ⟨0, by simp, by simp [walkFrom, hc], ?_⟩
      have : cum < cum + p := lt_of_le_of_lt h1 hc
      simpa using this
    · have h1' : cum + p ≤ rand := not_lt.mp hc
      have h2' : rand < (cum + p) + ps.sum := by
        simp only [List.sum_cons] at h2
        linarith
      obtain ⟨i, hi, heq, hpos⟩ := walkFrom_pos ps (cum + p) rand h1' h2'
      exact ⟨i + 1, by simpa using Nat.succ_lt_succ hi,
        by simp [walkFrom, hc, heq], by simpa using hpos⟩

theorem weighted_select_eq_none (probFn : HospCand → ℚ) (eligFn : HospCand → Bool)
    (cands : List HospCand) (rand : ℚ)
    (hpos : ∀ h ∈ cands, eligFn h = true → 0 < probFn h)
    (hnn : ∀ h ∈ cands, 0 ≤ probFn h)
    (htot : (cands.map probFn).sum = 0) :
    weighted_select probFn eligFn cands rand = none := by
  have hnp : (cands.filter eligFn).length = 0 := by
    by_contra hne
    have hlen : 0 < (cands.filter eligFn).length := Nat.pos_of_ne_zero hne
    obtain ⟨h, hh⟩ := List.exists_mem_of_length_pos hlen
    have hmem := List.mem_filter.mp hh
    have hgt : 0 < probFn h := hpos h hmem.1 hmem.2
    have hle : probFn h ≤ (cands.map probFn).sum := by
      refine List.single_le_sum ?_ _ (List.mem_map_of_mem probFn hmem.1)
      intro x hx
      obtain ⟨y, hy, rfl⟩ := List.mem_map.mp hx
      exact hnn y hy
    rw [htot] at hle
    linarith
  unfold weighted_select
  simp [hnp]

theorem weighted_select_mem_pos (probFn : HospCand → ℚ) (eligFn : HospCand → Bool)
    (cands : List HospCand) (rand : ℚ) (i : ℕ)
    (h0 : 0 ≤ rand) (h1 : rand < 1)
    (htot : 0 < (cands.map probFn).sum)
    (hres : weighted_select probFn eligFn cands rand = some i) :
    ∃ hi : i < cands.length, 0 < probFn (cands.get ⟨i, hi⟩) := by
  by_cases hnp : 0 < (cands.filter eligFn).length
  · have hne : (cands.map probFn).sum ≠ 0 := ne_of_gt htot
    have hsum1 : ((cands.map probFn).map (· / (cands.map probFn).sum)).sum = 1 := by
      rw [sum_map_div, div_self hne]
    have hw := walkFrom_pos ((cands.map probFn).map (· / (cands.map probFn).sum)) 0 rand
      h0 (by rw [hsum1]; simpa using h1)
    obtain ⟨j, hj, heq, hposj⟩ := hw
    have hji : j = i := by
      unfold weighted_select at hres
      rw [if_pos hnp, if_pos htot] at hres
      simp only [heq, Option.some.injEq] at hres
      exact hres
    subst hji
    have hjlen : j < cands.length := by simpa using hj
    refine ⟨hjlen, ?_⟩
    have hget : ((cands.map probFn).map (· / (cands.map probFn).sum)).get ⟨j, hj⟩ =
        probFn (cands.get ⟨j, hjlen⟩) / (cands.map probFn).sum := by
      simp [List.get_map]
    rw [hget] at hposj
    rcases (div_pos_iff).mp hposj with ⟨ha, _⟩ | ⟨_, hb⟩
    · exact ha
    · exact absurd htot (not_lt.mpr (le_of_lt hb))
  · unfold weighted_select at hres
    rw [if_neg hnp] at hres
    exact absurd hres (by simp)

theorem weighted_select_some_total_pos (probFn : HospCand → ℚ) (eligFn : HospCand → Bool)
    (cands : List HospCand) (rand : ℚ) (i : ℕ)
    (hpos : ∀ h ∈ cands, eligFn h = true → 0 < probFn h)
    (hnn : ∀ h ∈ cands, 0 ≤ probFn h)
    (hres : weighted_select probFn eligFn cands rand = some i) :
    0 < (cands.map probFn).sum := by
  rcases lt_or_eq_of_le (List.sum_nonneg (by
    intro x hx
    obtain ⟨y, hy, rfl⟩ := List.mem_map.mp hx
    exact hnn y hy)) with h | h
  · exact h
  · rw [weighted_select_eq_none probFn eligFn cands rand hpos hnn h.symm] at hres
    exact absurd hres (by simp)

/-! ### Per-mode weight facts -/

theorem catchment_prob_nonneg (ci : Bool) (h : HospCand) : 0 ≤ catchment_prob ci h := by
  unfold catchment_prob
  split
  · rename_i he
    exact div_nonneg (Nat.cast_nonneg _) (le_of_lt he.1)
  · exact le_refl 0

theorem catchment_prob_pos (ci : Bool) (h : HospCand)
    (he : catchment_eligible ci h) : 0 < catchment_prob ci h := by
  unfold catchment_prob
  rw [if_pos he]
  have hb : (0 : ℚ) < h.bed_count := by
    exact_mod_cast Nat.lt_of_le_of_lt (Nat.zero_le _) he.2.2.2.2.1
  exact div_pos hb he.1

theorem daily_prob_nonneg (ci ur : Bool) (r : ℚ) (h : HospCand) :
    0 ≤ daily_prob ci ur r h := by
  unfold daily_prob
  split
  · rename_i he
    exact div_nonneg (Nat.cast_nonneg _) (le_of_lt (mul_pos he.1 he.1))
  · exact le_refl 0

theorem daily_prob_pos (ci ur : Bool) (r : ℚ) (h : HospCand)
    (he : daily_eligible ci ur r h) : 0 < daily_prob ci ur r h := by
  unfold daily_prob
  rw [if_pos he]
  have hb : (0 : ℚ) < h.daily_capacity := by
    exact_mod_cast Nat.lt_of_le_of_lt (Nat.zero_le _) he.2.2.1
  exact div_pos hb (mul_pos he.1 he.1)

theorem primary_prob_nonneg (ci ur : Bool) (r : ℚ) (h : HospCand) :
    0 ≤ primary_prob ci ur r h := by
  unfold primary_prob
  split
  · rename_i he
    exact div_nonneg (Nat.cast_nonneg _) (le_of_lt (mul_pos he.1 he.1))
  · exact le_refl 0

theorem primary_prob_pos_eligible (ci ur : Bool) (r : ℚ) (h : HospCand)
    (hp : 0 < primary_prob ci ur r h) : primary_eligible ci ur r h := by
  by_contra hne
  unfold primary_prob at hp
  rw [if_neg hne] at hp
  exact absurd hp (lt_irrefl 0)

/-- C2 (amended): the catchment and daily selectors return no assignment
when `probability_total = 0` and, for a draw in `[0,1)`, only ever return a
candidate of positive weight; the primary-care selector returns no
assignment when no candidate is counted possible, and returns only
positive-weight candidates whenever `probability_total > 0`.  (As frozen
the claim also asserted the `probability_total = 0 → null` direction for
the primary-care selector, which fails: an otherwise-eligible hospital of
zero daily capacity is counted possible with weight `0` and the fallback
then returns the last candidate; see the counterexample.) -/
theorem hospital_selection_zero_total_behavior :
    (∀ (ci : Bool) (cands : List HospCand) (rand : ℚ),
        (cands.map (catchment_prob ci)).sum = 0 →
        get_random_open_hospital_matching_criteria ci cands rand = none) ∧
    (∀ (ci ur : Bool) (radius : ℚ) (cands : List HospCand) (rand : ℚ),
        (cands.map (daily_prob ci ur radius)).sum = 0 →
        get_random_open_healthcare_facility_matching_criteria ci ur radius cands rand = none) ∧
    (∀ (ci : Bool) (cands : List HospCand) (rand : ℚ) (i : ℕ),
        0 ≤ rand → rand < 1 →
        get_random_open_hospital_matching_criteria ci cands rand = some i →
        ∃ hi : i < cands.length, 0 < catchment_prob ci (cands.get ⟨i, hi⟩)) ∧
    (∀ (ci ur : Bool) (radius : ℚ) (cands : List HospCand) (rand : ℚ) (i : ℕ),
        0 ≤ rand → rand < 1 →
        get_random_open_healthcare_facility_matching_criteria ci ur radius cands rand = some i →
        ∃ hi : i < cands.length, 0 < daily_prob ci ur radius (cands.get ⟨i, hi⟩)) ∧
    (∀ (ci ur : Bool) (radius : ℚ) (cands : List HospCand) (rand : ℚ),
        (cands.filter (fun h => decide (primary_eligible ci ur radius h))).length = 0 →
        get_random_primary_care_facility_matching_criteria ci ur radius cands rand = none) ∧
    (∀ (ci ur : Bool) (radius : ℚ) (cands : List HospCand) (rand : ℚ) (i : ℕ),
        0 ≤ rand → rand < 1 →
        0 < (cands.map (primary_prob ci ur radius)).sum →
        get_random_primary_care_facility_matching_criteria ci ur radius cands rand = some i →
        ∃ hi : i < cands.length, 0 < primary_prob ci ur radius (cands.get ⟨i, hi⟩)) := by
  refine ⟨?_, ?_, ?_, ?_, ?_, ?_⟩
  · intro ci cands rand htot
    exact weighted_select_eq_none _ _ cands rand
      (fun h _ hd => catchment_prob_pos ci h (of_decide_eq_true hd))
      (fun h _ => catchment_prob_nonneg ci h) htot
  · intro ci ur radius cands rand htot
    exact weighted_select_eq_none _ _ cands rand
      (fun h _ hd => daily_prob_pos ci ur radius h (of_decide_eq_true hd))
      (fun h _ => daily_prob_nonneg ci ur radius h) htot
  · intro ci cands rand i h0 h1 hres
    have htot := weighted_select_some_total_pos _ _ cands rand i
      (fun h _ hd => catchment_prob_pos ci h (of_decide_eq_true hd))
      (fun h _ => catchment_prob_nonneg ci h) hres
    exact weighted_select_mem_pos _ _ cands rand i h0 h1 htot hres
  · intro ci ur radius cands rand i h0 h1 hres
    have htot := weighted_select_some_total_pos _ _ cands rand i
      (fun h _ hd => daily_prob_pos ci ur radius h (of_decide_eq_true hd))
      (fun h _ => daily_prob_nonneg ci ur radius h) hres
    exact weighted_select_mem_pos _ _ cands rand i h0 h1 htot hres
  · intro ci ur radius cands rand hnp
    unfold get_random_primary_care_facility_matching_criteria weighted_select
    simp [hnp]
  · intro ci ur radius cands rand i h0 h1 htot hres
    exact weighted_select_mem_pos _ _ cands rand i h0 h1 htot hres

/-- C2 witness: a single eligible catchment candidate of positive weight
is returned; the empty candidate list gives no assignment. -/
theorem hospital_selection_zero_total_behavior_witness :
    get_random_open_hospital_matching_criteria false [] 0 = none ∧
    (∃ hi : 0 < [fullPanelHosp].length,
      0 < catchment_prob false ([fullPanelHosp].get ⟨0, hi⟩)) := by
  constructor
  · exact hospital_selection_zero_total_behavior.1 false [] 0 (by simp)
  · refine hospital_selection_zero_total_behavior.2.2.1 false [fullPanelHosp] (1/2) 0
      (by norm_num) (by norm_num) ?_
    have he : catchment_eligible false fullPanelHosp := by
      refine ⟨by norm_num [fullPanelHosp], rfl, rfl, rfl, by norm_num [fullPanelHosp], by simp⟩
    have hval : catchment_prob false fullPanelHosp = 3 := by
      rw [catchment_prob, if_pos he]
      norm_num [fullPanelHosp]
    have hf : List.filter (fun h => decide (catchment_eligible false h)) [fullPanelHosp] =
        [fullPanelHosp] := by
      simp [List.filter_cons, decide_eq_true he]
    have hm : List.map (catchment_prob false) [fullPanelHosp] = [3] := by
      simp [hval]
    unfold get_random_open_hospital_matching_criteria weighted_select
    simp only [hf, hm]
    norm_num [walkFrom]

/-- C2 counterexample: in primary-care mode a single otherwise-eligible
hospital with zero daily patient capacity gives `probability_total = 0`,
yet the call returns that hospital (of weight `0`) instead of no
assignment. -/
theorem hospital_selection_zero_total_counterexample :
    (([zeroCapHosp].map (primary_prob false false 0)).sum = 0) ∧
    primary_prob false false 0 zeroCapHosp = 0 ∧
    get_random_primary_care_facility_matching_criteria false false 0 [zeroCapHosp] (1/2) =
      some 0 := by
  have he : primary_eligible false false 0 zeroCapHosp := by
    refine ⟨by norm_num [zeroCapHosp], rfl, by simp, by simp, by norm_num [zeroCapHosp]⟩
  have hp : primary_prob false false 0 zeroCapHosp = 0 := by
    rw [primary_prob, if_pos he]
    norm_num [zeroCapHosp]
  have hf : List.filter (fun h => decide (primary_eligible false false 0 h)) [zeroCapHosp] =
      [zeroCapHosp] := by
    simp [List.filter_cons, decide_eq_true he]
  have hm : List.map (primary_prob false false 0) [zeroCapHosp] = [0] := by
    simp [hp]
  refine ⟨by simp [hp], hp, ?_⟩
  unfold get_random_primary_care_facility_matching_criteria weighted_select
  simp only [hf, hm]
  norm_num [walkFrom]

/-- C4 (amended): whenever `probability_total > 0` the primary-care
selector returns only hospitals whose panel counter satisfies
`current_assigned < total_assigned`, and recording the returned assignment
(incrementing that hospital's counter) preserves
`current_assigned ≤ total_assigned` for every hospital.  (As frozen the
claim asserted the strict bound for every call; it fails when
`probability_total = 0` while a zero-capacity hospital is counted
possible — the fallback may then return a hospital whose panel is already
full; see the counterexample.) -/
theorem primary_care_capacity_bound
    (ci ur : Bool) (radius : ℚ) (cands : List HospCand) (rand : ℚ) (i : ℕ)
    (h0 : 0 ≤ rand) (h1 : rand < 1)
    (htot : 0 < (cands.map (primary_prob ci ur radius)).sum)
    (hres : get_random_primary_care_facility_matching_criteria ci ur radius cands rand =
      some i) :
    (∃ hi : i < cands.length,
      (cands.get ⟨i, hi⟩).current_assigned < (cands.get ⟨i, hi⟩).total_assigned) ∧
    ((∀ h ∈ cands, h.current_assigned ≤ h.total_assigned) →
      ∀ h ∈ record_primary_care_assignment cands i,
        h.current_assigned ≤ h.total_assigned) := by
  obtain ⟨hi, hp⟩ := weighted_select_mem_pos _ _ cands rand i h0 h1 htot hres
  have helig := primary_prob_pos_eligible ci ur radius _ hp
  have hlt : (cands.get ⟨i, hi⟩).current_assigned < (cands.get ⟨i, hi⟩).total_assigned :=
    helig.2.2.2.2
  refine ⟨⟨hi, hlt⟩, ?_⟩
  intro hall h hmem
  unfold record_primary_care_assignment at hmem
  rw [List.get?_eq_get hi] at hmem
  simp only at hmem
  rcases List.mem_or_eq_of_mem_set hmem with hin | heqh
  · exact hall h hin
  · subst heqh
    simpa using hlt

/-- C4 witness: a concrete one-hospital state with positive total weight:
the selector returns it and its panel counter is strictly below target. -/
theorem primary_care_capacity_bound_witness :
    (0:ℚ) ≤ 1/2 ∧ smallCapHosp.current_assigned < smallCapHosp.total_assigned := by
  have he : primary_eligible false false 0 smallCapHosp := by
    refine ⟨by norm_num [smallCapHosp], rfl, by simp, by simp, by norm_num [smallCapHosp]⟩
  have hp : primary_prob false false 0 smallCapHosp = 4 := by
    rw [primary_prob, if_pos he]
    norm_num [smallCapHosp]
  have hf : List.filter (fun h => decide (primary_eligible false false 0 h)) [smallCapHosp] =
      [smallCapHosp] := by
    simp [List.filter_cons, decide_eq_true he]
  have hm : List.map (primary_prob false false 0) [smallCapHosp] = [4] := by
    simp [hp]
  have hres : get_random_primary_care_facility_matching_criteria false false 0
      [smallCapHosp] (1/2) = some 0 := by
    unfold get_random_primary_care_facility_matching_criteria weighted_select
    simp only [hf, hm]
    norm_num [walkFrom]
  have h := primary_care_capacity_bound false false 0 [smallCapHosp] (1/2) 0
    (by norm_num) (by norm_num) (by rw [hm]; norm_num) hres
  obtain ⟨⟨hi, hlt⟩, _⟩ := h
  exact ⟨by norm_num, by simpa using hlt⟩

/-- C4 counterexample: with a zero-capacity possible hospital first and a
full-panel hospital last, `probability_total = 0`, the walk consumes
nothing, and the fallback returns the full-panel hospital, violating the
strict `current_assigned < total_assigned` bound at the time of the call. -/
theorem primary_care_capacity_bound_counterexample :
    get_random_primary_care_facility_matching_criteria false false 0
      [zeroCapHosp, fullPanelHosp] (1/2) = some 1 ∧
    ¬(fullPanelHosp.current_assigned < fullPanelHosp.total_assigned) := by
  have he : primary_eligible false false 0 zeroCapHosp := by
    refine ⟨by norm_num [zeroCapHosp], rfl, by simp, by simp, by norm_num [zeroCapHosp]⟩
  have hne : ¬ primary_eligible false false 0 fullPanelHosp := by
    intro hc
    have := hc.2.2.2.2
    norm_num [fullPanelHosp] at this
  have hp : primary_prob false false 0 zeroCapHosp = 0 := by
    rw [primary_prob, if_pos he]
    norm_num [zeroCapHosp]
  have hp2 : primary_prob false false 0 fullPanelHosp = 0 := by
    rw [primary_prob, if_neg hne]
  have hf : List.filter (fun h => decide (primary_eligible false false 0 h))
      [zeroCapHosp, fullPanelHosp] = [zeroCapHosp] := by
    simp [List.filter_cons, decide_eq_true he, decide_eq_false hne]
  have hm : List.map (primary_prob false false 0) [zeroCapHosp, fullPanelHosp] = [0, 0] := by
    simp [hp, hp2]
  constructor
  · unfold get_random_primary_care_facility_matching_criteria weighted_select
    simp only [hf, hm]
    norm_num [walkFrom]
  · norm_num [fullPanelHosp]

/-! ### Shelter/evacuation lemmas -/

theorem shelter_decay_loop_ge (dr dm : ℚ) (stream : ℕ → ℚ) (c : ℕ) (d : ℤ) :
    d ≤ (shelter_decay_loop dr dm stream c d).1 := by
  rw [shelter_decay_loop]
  split
  · rename_i h
    have ih := shelter_decay_loop_ge dr dm stream (c + 1) (d + 1)
    omega
  · simp
termination_by (⌈dm⌉ - d).toNat
decreasing_by
  rename_i h
  have hlt : d < ⌈dm⌉ := Int.lt_ceil.mpr h.1
  omega

theorem evac_return_loop_gt (p : ℚ) (re j : ℤ) (stream : ℕ → ℚ) :
    ∀ (c : ℕ) (days : List ℤ) (k : ℤ) (c' : ℕ),
      evac_return_loop p re j stream c days = (some k, c') → j < k := by
  intro c days
  induction days generalizing c with
  | nil =>
    intro k c' h
    simp [evac_return_loop] at h
  | cons d ds ih =>
    intro k c' h
    rw [evac_return_loop] at h
    split at h
    · split at h
      · rename_i hjd
        simp only [Prod.mk.injEq, Option.some.injEq] at h
        omega
      · exact ih (c + 1) k c' h
    · exact ih (c + 1) k c' h

theorem evac_outer_loop_mem (p : ℚ) (rdays : List ℤ) (re : ℤ) (stream : ℕ → ℚ) :
    ∀ (c : ℕ) (days : List ℤ) (j : ℤ) (r : Option ℤ) (c' : ℕ),
      evac_outer_loop p rdays re stream c days = (some (j, r), c') →
      j ∈ days ∧ ∀ k, r = some k → j < k := by
  intro c days
  induction days generalizing c with
  | nil =>
    intro j r c' h
    simp [evac_outer_loop] at h
  | cons d ds ih =>
    intro j r c' h
    rw [evac_outer_loop] at h
    split at h
    · simp only [Prod.mk.injEq, Option.some.injEq] at h
      obtain ⟨⟨hj, hr⟩, hc⟩ := h
      subst hj
      subst hr
      refine ⟨List.mem_cons_self _ _, ?_⟩
      intro k hk
      rcases hret : evac_return_loop p re d stream (c + 1) rdays with ⟨o, c2⟩
      rw [hret] at hk
      simp only at hk
      subst hk
      exact evac_return_loop_gt p re d stream (c + 1) rdays k c2 hret
    · obtain ⟨hmem, hk⟩ := ih (c + 1) j r c' h
      exact ⟨List.mem_cons_of_mem _ hmem, hk⟩

theorem mem_intRange (a b x : ℤ) (h : x ∈ intRange a b) : a ≤ x ∧ x ≤ b := by
  unfold intRange at h
  obtain ⟨n, hn, rfl⟩ := List.mem_map.mp h
  have := List.mem_range.mp hn
  omega

/-- C7: every household scheduled by `shelter_household` gets
`start_day ≥ 0` and `end_day > start_day` (duration at least 1), for all
parameters, normal-draw values and uniform streams; and every household
scheduled by the evacuation scheduler has evacuation day `≥ 0` and a
recorded return day strictly greater than the evacuation day whenever both
are set. -/
theorem scheduling_bounds :
    (∀ (early_rate decay_rate duration_mean normal_delay normal_duration : ℚ)
        (stream : ℕ → ℚ),
      0 ≤ (shelter_household early_rate decay_rate duration_mean normal_delay
            normal_duration stream).1 ∧
      (shelter_household early_rate decay_rate duration_mean normal_delay
            normal_duration stream).1 <
        (shelter_household early_rate decay_rate duration_mean normal_delay
            normal_duration stream).2) ∧
    (∀ (evac_start evac_end return_start return_end : ℤ) (evac_prob : ℚ)
        (stream : ℕ → ℚ) (j : ℤ) (r : Option ℤ),
      select_households_for_evacuation_hh evac_start evac_end return_start return_end
          evac_prob stream = some (j, r) →
      0 ≤ j ∧ ∀ k, r = some k → j < k) := by
  constructor
  · intro er dr dm nd ndur stream
    simp only [shelter_household]
    set start0 := ctrunc (4999999 / 10000000 + nd) with hs0
    set sc := (if 0 < er then early_shelter_loop er stream 0 start0 else (start0, 0)) with hsc
    set st := (if sc.1 < 0 then (0 : ℤ) else sc.1) with hst
    set dur0 := ctrunc (4999999 / 10000000 + ndur) with hd0
    set dur1 := (if dur0 < 1 then (1 : ℤ) else dur0) with hd1
    set dur2 := (if 0 < dr then
        (if stream sc.2 < 1 / 2 then (shelter_decay_loop dr dm stream (sc.2 + 1) 1).1
         else dur1)
      else dur1) with hd2
    have hst0 : 0 ≤ st := by
      rw [hst]
      split <;> omega
    have hdur : 1 ≤ dur2 := by
      have h1 : (1 : ℤ) ≤ dur1 := by
        rw [hd1]
        split <;> omega
      rw [hd2]
      split
      · split
        · exact shelter_decay_loop_ge dr dm stream (sc.2 + 1) 1
        · exact h1
      · exact h1
    exact ⟨hst0, by omega⟩
  · intro es ee rs re p stream j r h
    unfold select_households_for_evacuation_hh at h
    split at h
    · exact absurd h (by simp)
    · rename_i hguard
      rcases hres : evac_outer_loop p (intRange rs re) re stream 0 (intRange es ee)
        with ⟨o, c2⟩
      rw [hres] at h
      simp only at h
      subst h
      obtain ⟨hmem, hk⟩ := evac_outer_loop_mem p (intRange rs re) re stream 0
        (intRange es ee) j r c2 hres
      have hes := mem_intRange es ee j hmem
      push_neg at hguard
      exact ⟨by omega, hk⟩

/-- Concrete evacuation run: evacuation window `[0..0]`, return window
`[1..2]`, `evac_prob = 9/10`, all uniform draws `1/2`: evacuation triggers
on day 0 and the return day recorded is day 1. -/
theorem evac_concrete_eval :
    select_households_for_evacuation_hh 0 0 1 2 (9/10) (fun _ => 1/2) =
      some (0, some 1) := by
  have hr : intRange 1 2 = [1, 2] := by
    simp [intRange, List.range_succ]
  have he : intRange 0 0 = [0] := by
    simp [intRange, List.range_succ]
  unfold select_households_for_evacuation_hh
  rw [if_neg (by norm_num), hr, he]
  rw [evac_outer_loop, if_pos (by norm_num)]
  rw [evac_return_loop, if_pos (Or.inl (by norm_num)), if_pos (by norm_num)]

/-- C7 witness: the concrete evacuation run satisfies the bounds. -/
theorem scheduling_bounds_witness :
    (0 : ℤ) ≤ 0 ∧ (0 : ℤ) < 1 := by
  have h := scheduling_bounds.2 0 0 1 2 (9/10) (fun _ => 1/2) 0 (some 1)
    evac_concrete_eval
  exact ⟨h.1, h.2 1 rfl⟩

/-- C3: the per-day Bernoulli trial of the return-day window is drawn
against `HAZEL_disaster_evac_prob_per_day` (line 2534), not
`HAZEL_disaster_return_prob_per_day` as the claim states: with
`evac_prob = 9/10`, `return_prob = 1/10` and every draw `1/2`, the code
accepts return day 1 even though the draw `1/2` is not below the return
probability `1/10`; the spec-modelled loop drawing against the return
probability instead forces success only on the window's last day, day 2. -/
theorem hazel_return_trial_uses_evac_prob :
    select_households_for_evacuation_hh 0 0 1 2 (9/10) (fun _ => 1/2) =
      some (0, some 1) ∧
    ¬((1/2 : ℚ) < 1/10) ∧
    (evac_return_loop_asSpecified (1/10) 2 0 (fun _ => 1/2) 1 (intRange 1 2)).1 =
      some 2 := by
  refine ⟨evac_concrete_eval, by norm_num, ?_⟩
  have hr : intRange 1 2 = [1, 2] := by
    simp [intRange, List.range_succ]
  rw [hr]
  rw [evac_return_loop_asSpecified, if_neg (by norm_num)]
  rw [evac_return_loop_asSpecified, if_pos (Or.inr rfl), if_pos (by norm_num)]

/-! ### Shelter-selection lemmas -/

theorem filterMap_range_get? {α : Type} (l : List α) (k : ℕ) :
    (List.range k).filterMap (fun i => l.get? i) = l.take k := by
  induction k with
  | zero => simp
  | succ k ih =>
    rw [List.range_succ, List.filterMap_append, ih, List.take_succ]
    cases h : l[k]? <;> simp [List.filterMap_cons, List.get?_eq_getElem?, h]

theorem select_income_eq_reverse_take (hhs : List HH) (k : ℕ) (hk : k ≤ hhs.length) :
    select_households_for_shelter_income hhs k = hhs.reverse.take k := by
  unfold select_households_for_shelter_income
  rw [← filterMap_range_get? hhs.reverse k]
  apply List.filterMap_congr
  intro i hi
  have hik : i < k := List.mem_range.mp hi
  have hil : i < hhs.length := lt_of_lt_of_le hik hk
  rw [List.get?_eq_getElem?, List.get?_eq_getElem?, List.getElem?_reverse hil]

/-- C6: with the households income-sorted (as `setup_households` leaves
them) and `k = num_sheltering pct n ≤ n`, the income-mode selection has
exactly `k` households, they come from the household list without
repetition, each selected household is at least every unselected one under
the `compare_household_incomes` order, and `num_sheltering` equals the
spec's `round_half_up(pct * n)`; in random mode any shuffled copy yields
exactly `k` selected households from the list. -/
theorem select_households_for_shelter_correct
    (hhs : List HH) (pct : ℚ) (k : ℕ)
    (hpct : 0 ≤ pct)
    (hk : num_sheltering pct hhs.length = (k : ℤ))
    (hkn : k ≤ hhs.length)
    (hsorted : hhs.Sorted household_income_le) :
    num_sheltering pct hhs.length = roundHalfUp (pct * hhs.length) ∧
    (select_households_for_shelter_income hhs k).length = k ∧
    (∀ x ∈ select_households_for_shelter_income hhs k, x ∈ hhs) ∧
    (hhs.Nodup → (select_households_for_shelter_income hhs k).Nodup) ∧
    (∀ x ∈ select_households_for_shelter_income hhs k,
      ∀ y ∈ hhs.take (hhs.length - k), household_income_le y x) ∧
    (∀ tmp : List HH, tmp.Perm hhs →
      (select_households_for_shelter_random tmp k).length = k ∧
      ∀ x ∈ select_households_for_shelter_random tmp k, x ∈ hhs) := by
  have hsel := select_income_eq_reverse_take hhs k hkn
  have hmem_drop : ∀ x ∈ select_households_for_shelter_income hhs k,
      x ∈ hhs.drop (hhs.length - k) := by
    intro x hx
    rw [hsel] at hx
    have h2 : (hhs.reverse.take k).reverse = hhs.drop (hhs.length - k) := by
      rw [List.reverse_take, List.reverse_reverse, List.length_reverse]
    rw [← h2]
    exact List.mem_reverse.mpr hx
  refine ⟨?_, ?_, ?_, ?_, ?_, ?_⟩
  · unfold num_sheltering ctrunc roundHalfUp
    have hq : (0 : ℚ) ≤ 1 / 2 + pct * hhs.length := by positivity
    rw [if_pos hq, add_comm]
  · rw [hsel, List.length_take, List.length_reverse]
    omega
  · intro x hx
    exact List.mem_of_mem_drop (hmem_drop x hx)
  · intro hnd
    rw [hsel]
    exact ((List.nodup_reverse).mpr hnd).sublist (List.take_sublist _ _)
  · intro x hx y hy
    have hx' := hmem_drop x hx
    have hpair : List.Pairwise household_income_le
        (hhs.take (hhs.length - k) ++ hhs.drop (hhs.length - k)) := by
      rw [List.take_append_drop]
      exact hsorted
    exact (List.pairwise_append.mp hpair).2.2 y hy x hx'
  · intro tmp hperm
    constructor
    · unfold select_households_for_shelter_random
      rw [List.length_take, hperm.length_eq]
      omega
    · intro x hx
      exact hperm.mem_iff.mp (List.mem_of_mem_take hx)

/-- C6 witness: two households sorted by income, `pct = 1/2`, selecting
exactly one household. -/
theorem select_households_for_shelter_correct_witness :
    (select_households_for_shelter_income [⟨1, 10⟩, ⟨0, 20⟩] 1).length = 1 := by
  have hk : num_sheltering (1 / 2) 2 = (1 : ℤ) := by
    unfold num_sheltering ctrunc
    rw [if_pos (by norm_num)]
    rw [show (1 / 2 + (1 / 2 : ℚ) * (2 : ℕ)) = 3 / 2 by push_cast; ring]
    rw [Int.floor_eq_iff]
    constructor <;> norm_num
  have h := select_households_for_shelter_correct [⟨1, 10⟩, ⟨0, 20⟩] (1 / 2) 1
    (by norm_num) hk (by norm_num) (by
      constructor
      · intro b hb
        simp only [List.mem_singleton] at hb
        subst hb
        decide
      · exact List.sorted_singleton _)
  exact h.2.1

/-! ### Registry lemmas -/

theorem assoc_find_eq_none {β : Type} :
    ∀ (l : List (String × β)) (s : String),
      assoc_find l s = none ↔ s ∉ l.map Prod.fst
  | [], s => by simp [assoc_find]
  | (k, v) :: tl, s => by
    simp only [assoc_find, List.map_cons, List.mem_cons]
    split
    · rename_i h
      subst h
      simp
    · rename_i h
      rw [assoc_find_eq_none tl s]
      constructor
      · intro hn hc
        rcases hc with hc | hc
        · exact h hc.symm
        · exact hn hc
      · intro hn hc
        exact hn (Or.inr hc)

theorem assoc_find_of_mem_nodup {β : Type} :
    ∀ (l : List (String × β)) (s : String) (b : β),
      (l.map Prod.fst).Nodup → (s, b) ∈ l → assoc_find l s = some b
  | [], s, b, _, h => by simp at h
  | (k, v) :: tl, s, b, hnd, h => by
    simp only [List.map_cons, List.nodup_cons] at hnd
    simp only [List.mem_cons] at h
    rcases h with h | h
    · obtain ⟨h1, h2⟩ := Prod.ext_iff.mp h
      simp only at h1 h2
      subst h1
      subst h2
      unfold assoc_find
      rw [if_pos rfl]
    · have hs_ne : k ≠ s := by
        intro hks
        subst hks
        exact hnd.1 (by simpa using List.mem_map_of_mem Prod.fst h)
      unfold assoc_find
      rw [if_neg hs_ne]
      exact assoc_find_of_mem_nodup tl s b hnd.2 h

theorem add_place_preserves_inv (r : Registry) (label : String) (t : Char)
    (h : RegistryInv r) : RegistryInv (add_place r label t).2 := by
  unfold add_place
  split
  · exact h
  · rename_i hfresh
    cases hmk : mkPlace label t r.next_place_id with
    | none => exact h
    | some p =>
      obtain ⟨h1, h2, h3, h4⟩ := h
      unfold mkPlace at hmk
      split at hmk
      · rename_i htype
        have hp : p = ⟨label, t, r.next_place_id⟩ := (Option.some.inj hmk).symm
        subst hp
        have hnotin : label ∉ r.places.map PlaceRec.label := by
          have hnone : assoc_find r.place_label_map label = none :=
            Option.not_isSome_iff_eq_none.mp hfresh
          have hni := (assoc_find_eq_none r.place_label_map label).mp hnone
          rw [h3] at hni
          simpa [List.map_map, Function.comp] using hni
        refine ⟨?_, ?_, ?_, ?_⟩
        · simp [h1]
        · show (r.places ++ [(⟨label, t, r.next_place_id⟩ : PlaceRec)]).map PlaceRec.id =
            List.range (r.places ++ [(⟨label, t, r.next_place_id⟩ : PlaceRec)]).length
          rw [List.map_append, h2, List.length_append]
          simp [h1, List.range_succ]
        · show r.place_label_map ++ [(label, r.next_place_id)] =
            (r.places ++ [(⟨label, t, r.next_place_id⟩ : PlaceRec)]).map
              (fun q => (q.label, q.id))
          rw [List.map_append, h3]
          simp
        · show ((r.places ++ [(⟨label, t, r.next_place_id⟩ : PlaceRec)]).map PlaceRec.label).Nodup
          rw [List.map_append]
          rw [List.nodup_append]
          refine ⟨h4, List.nodup_singleton _, ?_⟩
          intro a ha hb
          simp only [List.map_cons, List.map_nil, List.mem_singleton] at hb
          subst hb
          exact hnotin ha
      · exact absurd hmk (by simp)

theorem foldl_add_place_inv (reqs : List (String × Char)) :
    ∀ (r : Registry), RegistryInv r →
      RegistryInv (reqs.foldl (fun r q => (add_place r q.1 q.2).2) r) := by
  induction reqs with
  | nil => intro r h; exact h
  | cons q qs ih =>
    intro r h
    exact ih _ (add_place_preserves_inv r q.1 q.2 h)

theorem runAdds_inv (reqs : List (String × Char)) : RegistryInv (runAdds reqs) :=
  foldl_add_place_inv reqs init_registry ⟨rfl, rfl, rfl, List.nodup_nil⟩

theorem get_place_from_label_of_inv (r : Registry) (hinv : RegistryInv r)
    (p : PlaceRec) (hp : p ∈ r.places) (hlbl : p.label ≠ "-1") :
    get_place_from_label r p.label = some p := by
  obtain ⟨h1, h2, h3, h4⟩ := hinv
  unfold get_place_from_label
  rw [if_neg hlbl]
  have hkeys : (r.place_label_map.map Prod.fst).Nodup := by
    rw [h3]
    simpa [List.map_map, Function.comp] using h4
  have hmem : (p.label, p.id) ∈ r.place_label_map := by
    rw [h3]
    exact List.mem_map_of_mem _ hp
  rw [assoc_find_of_mem_nodup _ _ _ hkeys hmem]
  obtain ⟨i, hi⟩ := List.mem_iff_get.mp hp
  have hid : p.id = i.1 := by
    have hq := congrArg (fun l => l.get? i.1) h2
    simp only [List.get?_map] at hq
    rw [List.get?_eq_get i.2, List.get?_range (by simpa using i.2)] at hq
    rw [hi] at hq
    exact Option.some.inj (by simpa using hq)
  show r.places.get? p.id = some p
  rw [hid, List.get?_eq_get i.2]
  exact congrArg some hi

/-- C5 (amended): over any sequence of `add_place` calls from the empty
registry, place ids are pairwise distinct and labels are pairwise
distinct; `add_place` on an already-registered label changes no registry
state and returns `get_place_from_label` of that label, which — for any
label other than the sentinel `"-1"` — is exactly the registered place
with that label (the round trip).  (As frozen the claim also covered the
label `"-1"`: a place with that label is registered normally, but
`get_place_from_label`, and hence the duplicate `add_place` return, is
null for it; see the counterexample.) -/
theorem add_place_registry_correct (reqs : List (String × Char)) :
    ((runAdds reqs).places.map PlaceRec.id).Nodup ∧
    ((runAdds reqs).places.map PlaceRec.label).Nodup ∧
    (∀ label t, (assoc_find (runAdds reqs).place_label_map label).isSome →
      (add_place (runAdds reqs) label t).2 = runAdds reqs ∧
      (add_place (runAdds reqs) label t).1 =
        get_place_from_label (runAdds reqs) label) ∧
    (∀ p ∈ (runAdds reqs).places, p.label ≠ "-1" →
      get_place_from_label (runAdds reqs) p.label = some p ∧
      ∀ t, (add_place (runAdds reqs) p.label t).1 = some p) := by
  obtain ⟨h1, h2, h3, h4⟩ := runAdds_inv reqs
  refine ⟨?_, h4, ?_, ?_⟩
  · rw [h2]
    exact List.nodup_range _
  · intro label t hs
    unfold add_place
    rw [if_pos hs]
    exact ⟨rfl, rfl⟩
  · intro p hp hlbl
    have hg := get_place_from_label_of_inv (runAdds reqs) (runAdds_inv reqs) p hp hlbl
    refine ⟨hg, ?_⟩
    intro t
    have hs : (assoc_find (runAdds reqs).place_label_map p.label).isSome := by
      have hmem : (p.label, p.id) ∈ (runAdds reqs).place_label_map := by
        rw [h3]
        exact List.mem_map_of_mem _ hp
      have hkeys : ((runAdds reqs).place_label_map.map Prod.fst).Nodup := by
        rw [h3]
        simpa [List.map_map, Function.comp] using h4
      rw [assoc_find_of_mem_nodup _ _ _ hkeys hmem]
      rfl
    unfold add_place
    rw [if_pos hs]
    exact hg

/-- C5 witness: a single request with label `"A"` round-trips. -/
theorem add_place_registry_correct_witness :
    get_place_from_label (runAdds [("A", 'H')]) "A" = some ⟨"A", 'H', 0⟩ := by
  have hp : (⟨"A", 'H', 0⟩ : PlaceRec) ∈ (runAdds [("A", 'H')]).places := by
    simp [runAdds, add_place, init_registry, assoc_find, mkPlace, place_type_chars]
  exact ((add_place_registry_correct [("A", 'H')]).2.2.2 ⟨"A", 'H', 0⟩ hp
    (by decide)).1

/-- C5 counterexample: a place with the sentinel label `"-1"` is added and
registered, yet `get_place_from_label "-1"` returns null, and the
duplicate `add_place` call returns null rather than the existing place
(the registry state is unchanged, but the returned place is not the
registered one). -/
theorem sentinel_label_breaks_round_trip :
    (runAdds [("-1", 'H')]).places.map PlaceRec.label = ["-1"] ∧
    get_place_from_label (runAdds [("-1", 'H')]) "-1" = none ∧
    (add_place (runAdds [("-1", 'H')]) "-1" 'H').1 = none ∧
    (add_place (runAdds [("-1", 'H')]) "-1" 'H').2 = runAdds [("-1", 'H')] := by
  refine ⟨?_, ?_, ?_, ?_⟩
  · simp [runAdds, add_place, init_registry, assoc_find, mkPlace, place_type_chars]
  · simp [get_place_from_label]
  · simp [runAdds, add_place, init_registry, assoc_find, mkPlace, place_type_chars,
      get_place_from_label]
  · simp [runAdds, add_place, init_registry, assoc_find, mkPlace, place_type_chars]

/-- C10: with a fresh label, `add_place` produces a place exactly when the
type tag is one of the seven recognized tags `H W O N S C M`; for any
other tag the `switch` constructs nothing (`mkPlace` is `none`) and the
id assignment of line 1466 dereferences the null `place`, so membership in
those seven tags is the precondition under which the null dereference is
unreachable. -/
theorem add_place_type_precondition (label : String) (t : Char) (r : Registry)
    (hfresh : assoc_find r.place_label_map label = none) :
    ((add_place r label t).1.isSome ↔ t ∈ place_type_chars) ∧
    ((mkPlace label t r.next_place_id).isSome ↔ t ∈ place_type_chars) := by
  have hmk : ∀ id, (mkPlace label t id).isSome ↔ t ∈ place_type_chars := by
    intro id
    unfold mkPlace
    split
    · rename_i h
      simpa using h
    · rename_i h
      simpa using h
  refine ⟨?_, hmk _⟩
  unfold add_place
  rw [hfresh]
  cases hm : mkPlace label t r.next_place_id with
  | none =>
    rw [← hmk r.next_place_id, hm]
    simp
  | some p =>
    rw [← hmk r.next_place_id, hm]
    simp

/-- C10 witness: fresh label in the empty registry, recognized tag `'H'`
versus unrecognized tag `'Z'`. -/
theorem add_place_type_precondition_witness :
    ((add_place init_registry "X" 'H').1.isSome ↔ 'H' ∈ place_type_chars) ∧
    ((add_place init_registry "X" 'Z').1.isSome ↔ 'Z' ∈ place_type_chars) :=
  ⟨(add_place_type_precondition "X" 'H' init_registry rfl).1,
   (add_place_type_precondition "X" 'Z' init_registry rfl).1⟩

/-! ### Worker-reassignment theorems -/

/-- C8: for every worker-reassignment target the desired staff count is
`fixed_staff + round_half_up(n / ratio)` for the type-specific size
measure `n` (students / employees / residents), with the proportional
term omitted when `ratio = 0`; and a target whose patch lookup fails is
skipped while the remaining targets are still processed (no abort). -/
theorem reassign_staff_count_correct :
    (∀ (fixed_staff : ℤ) (staff_ratio : ℚ) (n : ℕ),
      0 ≤ fixed_staff → 0 < staff_ratio →
      staff_count fixed_staff staff_ratio n =
        fixed_staff + roundHalfUp ((n : ℚ) / staff_ratio)) ∧
    (∀ (fixed_staff : ℤ) (n : ℕ), staff_count fixed_staff 0 n = fixed_staff) ∧
    (∀ (pt : Char) (fs : ℤ) (sr : ℚ) (places : List StaffTarget)
        (p : StaffTarget) (st : ℤ),
      (p, st) ∈ reassign_workers_to_schools pt fs sr places →
      p.ptype = pt ∧ p.in_region = true ∧ st = staff_count fs sr p.orig_students) ∧
    (∀ (pt : Char) (fs : ℤ) (sr : ℚ) (places : List StaffTarget)
        (p : StaffTarget) (st : ℤ),
      (p, st) ∈ reassign_workers_to_places_of_type pt fs sr places →
      p.ptype = pt ∧ p.in_region = true ∧
      st = staff_count fs sr
        (if pt = TYPE_HOSPITAL then p.employee_count else p.size)) ∧
    (∀ (sub : Char) (fs : ℤ) (sr : ℚ) (places : List StaffTarget)
        (p : StaffTarget) (st : ℤ),
      (p, st) ∈ reassign_workers_to_group_quarters sub fs sr places →
      p.ptype = 'W' ∧ p.subtype = sub ∧ p.in_region = true ∧
      st = staff_count fs sr p.size) ∧
    (∀ (pt : Char) (fs : ℤ) (sr : ℚ) (l1 l2 : List StaffTarget)
        (p : StaffTarget), p.in_region = false →
      reassign_workers_to_schools pt fs sr (l1 ++ p :: l2) =
        reassign_workers_to_schools pt fs sr (l1 ++ l2)) := by
  refine ⟨?_, ?_, ?_, ?_, ?_, ?_⟩
  · intro fs sr n hfs hsr
    unfold staff_count ctrunc
    rw [if_pos hsr]
    have hq : (0 : ℚ) ≤ (fs : ℚ) + (1 / 2 + (n : ℚ) / sr) := by
      have h1 : (0 : ℚ) ≤ (fs : ℚ) := by exact_mod_cast hfs
      have h2 : (0 : ℚ) ≤ (n : ℚ) / sr :=
        div_nonneg (Nat.cast_nonneg n) (le_of_lt hsr)
      linarith
    rw [if_pos hq, Int.floor_int_add]
    unfold roundHalfUp
    rw [add_comm (1 / 2 : ℚ)]
  · intro fs n
    unfold staff_count
    rw [if_neg (lt_irrefl 0)]
  · intro pt fs sr places p st h
    obtain ⟨a, _, hfa⟩ := List.mem_filterMap.mp h
    split at hfa
    · split at hfa
      · rename_i h1 h2
        obtain ⟨ha, hst⟩ := Prod.ext_iff.mp (Option.some.inj hfa)
        simp only at ha hst
        subst ha
        exact ⟨h1, h2, hst.symm⟩
      · exact absurd hfa (by simp)
    · exact absurd hfa (by simp)
  · intro pt fs sr places p st h
    obtain ⟨a, _, hfa⟩ := List.mem_filterMap.mp h
    split at hfa
    · split at hfa
      · rename_i h1 h2
        obtain ⟨ha, hst⟩ := Prod.ext_iff.mp (Option.some.inj hfa)
        simp only at ha hst
        subst ha
        exact ⟨h1, h2, hst.symm⟩
      · exact absurd hfa (by simp)
    · exact absurd hfa (by simp)
  · intro sub fs sr places p st h
    obtain ⟨a, _, hfa⟩ := List.mem_filterMap.mp h
    split at hfa
    · split at hfa
      · rename_i h1 h2
        obtain ⟨ha, hst⟩ := Prod.ext_iff.mp (Option.some.inj hfa)
        simp only at ha hst
        subst ha
        exact ⟨h1.1, h1.2, h2, hst.symm⟩
      · exact absurd hfa (by simp)
    · exact absurd hfa (by simp)
  · intro pt fs sr l1 l2 p hreg
    unfold reassign_workers_to_schools
    rw [List.filterMap_append, List.filterMap_append, List.filterMap_cons]
    have hfp : (if p.ptype = pt then
        (if p.in_region = true then
          some (p, staff_count fs sr p.orig_students) else none)
      else none) = none := by
      rw [hreg]
      simp
    rw [hfp]

/-- C8 witness: `fixed_staff = 1`, `ratio = 2`, `n = 3`. -/
theorem reassign_staff_count_correct_witness :
    (0 : ℤ) ≤ 1 ∧ staff_count 1 2 3 = 1 + roundHalfUp (((3 : ℕ) : ℚ) / 2) :=
  ⟨by norm_num, reassign_staff_count_correct.1 1 2 3 (by norm_num) (by norm_num)⟩

/-! ### Mapping-reuse theorem -/

/-- C9: when the household's label is in the loaded mapping and the mapped
hospital label is registered, `get_hospital_assigned_to_household` returns
exactly the hospital registered under that label and the random-stream
cursor is unchanged: no draws are consumed, so a complete prior mapping
reproduces the assignment without re-sampling. -/
theorem mapping_reuse_no_resampling
    (s : HospMapState) (hh_label hosp_label : String) (hosp_id : ℕ)
    (h1 : assoc_find s.hh_label_hosp_label_map hh_label = some hosp_label)
    (h2 : assoc_find s.hosp_label_hosp_id_map hosp_label = some hosp_id)
    (h3 : s.hospitals.get? hosp_id = some hosp_label)
    (hh_size : ℕ) (ins : Bool) (cands : List HospCand) (stream : ℕ → ℚ) (c : ℕ) :
    get_hospital_assigned_to_household s hh_label hh_size ins cands stream c =
      (some hosp_id, c) ∧
    ∃ i, (get_hospital_assigned_to_household s hh_label hh_size ins cands
        stream c).1 = some i ∧ s.hospitals.get? i = some hosp_label := by
  have hmain : get_hospital_assigned_to_household s hh_label hh_size ins cands stream c =
      (some hosp_id, c) := by
    unfold get_hospital_assigned_to_household
    rw [h1]
    show (match assoc_find s.hosp_label_hosp_id_map hosp_label with
      | some hid => (some hid, c)
      | none => (none, c)) = (some hosp_id, c)
    rw [h2]
  exact ⟨hmain, hosp_id, by rw [hmain], h3⟩

/-- C9 witness: a one-entry mapping is reused at cursor 5 without moving
the cursor. -/
theorem mapping_reuse_no_resampling_witness :
    get_hospital_assigned_to_household
      ⟨[("H1", "HOSP7")], [("HOSP7", 0)], ["HOSP7"]⟩ "H1" 3 false [] (fun _ => 0) 5 =
      (some 0, 5) :=
  (mapping_reuse_no_resampling ⟨[("H1", "HOSP7")], [("HOSP7", 0)], ["HOSP7"]⟩
    "H1" "HOSP7" 0 (by simp [assoc_find]) (by simp [assoc_find]) rfl
    3 false [] (fun _ => 0) 5).1

end FRED
